import Mathlib

/-!
# MediSense backend: verification codes and case creation

A shallow embedding of the request handlers of `src/server.js` that decide the
behaviour of the patient verification workflow (`POST /api/patients/send-code`,
`POST /api/patients/verify-code`) and of case creation
(`POST /api/cases/from-ia`, read back by `GET /api/cases`).

The relational store is a record of tables, each table a list of rows in
insertion order.  A handler is a function from the store, the request body and
the values the environment supplies (clock readings, the random draw) to an
outcome and the next store.
-/

namespace Medisense

/-! ## Request fields -/

/-- A text field of a JSON request body; `none` stands for a field that is
missing or `null`. -/
abbrev Field := Option String

/-- JavaScript `!x` on a text field: a missing field, `null` and the empty
string are falsy, every other string is truthy. -/
def falsy : Field → Bool
  | none => true
  | some s => decide (s = "")

/-! ## Tables -/

/-- Modelled from the spec: the definition of table `patients` is missing from
the sources.  A row has the columns the queries name; the document number is
the natural key of the spec. -/
structure Patient where
  id : Nat
  full_name : String
  document_number : String
  whatsapp_number : Option String
  email : Option String
deriving DecidableEq, Repr

/-- Modelled from the spec: the definition of table
`patient_verification_codes` is missing from the sources.  A row has the columns
the queries name.  Times are milliseconds since the epoch, the value a
JavaScript `Date` compares by. -/
structure VerificationCode where
  id : Nat
  patient_id : Nat
  code : String
  created_at : Nat
  expires_at : Nat
  is_used : Bool
deriving DecidableEq, Repr

/-- Modelled from the spec: the definition of table `users` (the doctors) is
missing from the sources.  A row has the columns the queries name. -/
structure User where
  id : Nat
  name : String
  email : String
  password_hash : String
  specialty : String
  is_active : Bool
deriving DecidableEq, Repr

/-- Modelled from the spec: the definition of table `cases` is missing from the
sources.  A row has the columns the queries name; `ai_symptoms` is a text
column, holding what `JSON.stringify` wrote, and `created_at` is filled by the
database. -/
structure Case where
  id : Nat
  patient_id : Nat
  assigned_doctor_id : Nat
  specialty : String
  risk_level : Option String
  status : String
  ai_summary : Option String
  ai_symptoms : String
  possible_diagnosis : Option String
  recommended_treatment : Option String
  diagnosis_justification : Option String
  estimated_price : ℚ
  created_at : Nat
deriving DecidableEq, Repr

/-- Modelled from the spec: the definition of table `appointments` is missing
from the sources.  A row has the columns the queries name. -/
structure Appointment where
  id : Nat
  case_id : Nat
  patient_id : Nat
  doctor_id : Nat
  specialty : String
  scheduled_date : String
  status : String
  price : ℚ
deriving DecidableEq, Repr

/-- The relational store the handlers query through `pool`. -/
structure Store where
  patients : List Patient
  codes : List VerificationCode
  users : List User
  cases : List Case
  appointments : List Appointment
deriving DecidableEq, Repr

/-- Modelled from the spec: the table definitions are not part of the sources,
so the key a table gives to an inserted row (the `id` that `RETURNING *` hands
back) is taken to be one more than the largest key present, which is a key no
row of the table carries. -/
def freshId (ids : List Nat) : Nat :=
  ids.foldr max 0 + 1

/-! ## Queries of the verification workflow -/

/-- The first row of `SELECT * FROM patients WHERE document_number=$1`. -/
def findPatient (ps : List Patient) (dni : String) : Option Patient :=
  ps.find? (fun p => decide (p.document_number = dni))

/-- One step of the scan for the row with the greatest `created_at`. -/
def newer (best : Option VerificationCode) (r : VerificationCode) :
    Option VerificationCode :=
  match best with
  | none => some r
  | some b => if b.created_at < r.created_at then some r else some b

/-- The query
`SELECT * FROM patient_verification_codes WHERE patient_id=$1 AND is_used=false
ORDER BY created_at DESC LIMIT 1`.  Among rows with the same greatest
`created_at` the database may return any; the embedding returns the one
inserted first. -/
def latestUnusedCode (cs : List VerificationCode) (pid : Nat) :
    Option VerificationCode :=
  (cs.filter (fun r => decide (r.patient_id = pid) && !r.is_used)).foldl newer none

/-- The statement `UPDATE patient_verification_codes SET is_used=true WHERE id=$1`. -/
def markUsed (cs : List VerificationCode) (id : Nat) : List VerificationCode :=
  cs.map (fun r => if r.id = id then { r with is_used := true } else r)

/-! ## `POST /api/patients/verify-code` -/

/-- The responses of the verify-code handler. -/
inductive VerifyOutcome where
  | missingFields
  | notFound
  | noActiveCode
  | incorrectCode
  | expired
  | verified (patient : Patient)
deriving DecidableEq, Repr

/-- HTTP status of a verify-code response. -/
def VerifyOutcome.status : VerifyOutcome → Nat
  | .missingFields => 400
  | .notFound => 404
  | .noActiveCode => 400
  | .incorrectCode => 400
  | .expired => 400
  | .verified _ => 200

/-- The `message` of a verify-code response. -/
def VerifyOutcome.message : VerifyOutcome → String
  | .missingFields => "DNI y código son requeridos"
  | .notFound => "Paciente no encontrado"
  | .noActiveCode => "No hay código activo para este paciente"
  | .incorrectCode => "Código incorrecto"
  | .expired => "El código ha expirado"
  | .verified _ => "Verificación exitosa"

/-- The verify-code handler (`src/server.js`, lines 262-321): `now` is the
reading of `new Date()`, `dni` and `code` are the body fields. -/
def verifyCode (s : Store) (now : Nat) (dni code : Field) : VerifyOutcome × Store :=
  if falsy dni || falsy code then (.missingFields, s)
  else
    match findPatient s.patients (dni.getD "") with
    | none => (.notFound, s)
    | some patient =>
      match latestUnusedCode s.codes patient.id with
      | none => (.noActiveCode, s)
      | some record =>
        if record.code ≠ code.getD "" then (.incorrectCode, s)
        else if now > record.expires_at then (.expired, s)
        else (.verified patient, { s with codes := markUsed s.codes record.id })

/-! ## `POST /api/patients/send-code` -/

/-- The whole number nearest to `q`, the even one of two equally near. -/
def roundHalfEven (q : ℚ) : ℤ :=
  let f := Int.floor q
  if q - f < 1 / 2 then f
  else if 1 / 2 < q - f then f + 1
  else if f % 2 = 0 then f else f + 1

/-- The exponent of the unit in the last place of a binary64 number of the
magnitude of `x`: 52 below the exponent of `x`, and that of the subnormal
numbers for the smallest magnitudes. -/
def ulpExponent (x : ℚ) : ℤ :=
  max (Int.log 2 |x|) (-1022) - 52

/-- The binary64 number nearest to `x` (round to nearest, ties to even), for
`x` below the overflow threshold: the value of a JavaScript Number operation
whose exact result is `x`. -/
def toDouble (x : ℚ) : ℚ :=
  roundHalfEven (x / 2 ^ ulpExponent x) * 2 ^ ulpExponent x

/-- The expression `Math.floor(100000 + Math.random() * 900000).toString()`
for the draw `r` of `Math.random()`, each Number operation rounding its exact
result to binary64. -/
def genCode (r : ℚ) : String :=
  toString (Int.floor (toDouble (100000 + toDouble (r * 900000))))

/-- The responses of the send-code handler. -/
inductive IssueOutcome where
  | missingDni
  | notFound
  | sent (expires_at : Nat)
deriving DecidableEq, Repr

/-- HTTP status of a send-code response. -/
def IssueOutcome.status : IssueOutcome → Nat
  | .missingDni => 400
  | .notFound => 404
  | .sent _ => 200

/-- The `message` of a send-code response. -/
def IssueOutcome.message : IssueOutcome → String
  | .missingDni => "DNI es requerido"
  | .notFound => "Paciente no encontrado"
  | .sent _ => "Código de verificación enviado al correo registrado."

/-- Modelled from the spec: the definition of table `patient_verification_codes`
is missing from the sources.  The `INSERT` of the send-code handler leaves the
column `is_used` out, and a code stays unused until a verification marks it
used, so the column starts as `false`. -/
def defaultIsUsed : Bool := false

/-- The send-code handler (`src/server.js`, lines 221-260): `now` is the
reading of `Date.now()`, `r` the draw of `Math.random()`, and `createdAt` the
`created_at` the database gives the inserted row.  The e-mail dispatch leaves
the store alone and its failure is swallowed by `sendVerificationEmail`. -/
def sendCode (s : Store) (now createdAt : Nat) (r : ℚ) (dni : Field) :
    IssueOutcome × Store :=
  if falsy dni then (.missingDni, s)
  else
    match findPatient s.patients (dni.getD "") with
    | none => (.notFound, s)
    | some patient =>
      let code := genCode r
      let expiresAt := now + 1 * 60 * 1000
      let row : VerificationCode :=
        { id := freshId (s.codes.map (·.id)), patient_id := patient.id, code := code,
          created_at := createdAt, expires_at := expiresAt, is_used := defaultIsUsed }
      (.sent expiresAt, { s with codes := s.codes ++ [row] })

/-! ## `POST /api/cases/from-ia` -/

/-- The code points that are WhiteSpace or LineTerminator in ECMAScript, which
are the ones `String.prototype.trim` strips. -/
def isJsSpace (c : Char) : Bool :=
  let n := c.toNat
  n = 0x09 || n = 0x0A || n = 0x0B || n = 0x0C || n = 0x0D || n = 0x20 || n = 0xA0 ||
  n = 0x1680 || (0x2000 ≤ n && n ≤ 0x200A) || n = 0x2028 || n = 0x2029 || n = 0x202F ||
  n = 0x205F || n = 0x3000 || n = 0xFEFF

/-- `String.prototype.trim` on the characters of a string. -/
def trimChars (cs : List Char) : List Char :=
  ((cs.dropWhile isJsSpace).reverse.dropWhile isJsSpace).reverse

/-- `String.prototype.trim`. -/
def jsTrim (s : String) : String :=
  String.mk (trimChars s.data)

/-- `s.split(",")` on the characters of a string: the pieces between commas,
empty pieces included, so that the empty string gives one empty piece. -/
def splitComma : List Char → List (List Char)
  | [] => [[]]
  | c :: cs =>
    if c = ',' then [] :: splitComma cs
    else
      match splitComma cs with
      | [] => [[c]]
      | piece :: pieces => (c :: piece) :: pieces

/-- `s.split(",")`. -/
def jsSplitComma (s : String) : List String :=
  (splitComma s.data).map String.mk

/-- The `patient` object of the request body. -/
structure PatientInfo where
  dni : String
  nombres : String
  apellidos : String
  whatsapp : Option String
  email : Option String
deriving DecidableEq, Repr

/-- The `symptoms` field of the request body: an array of strings, a string, or
a value that is neither an array nor a string (a missing field among them). -/
inductive Symptoms where
  | list (items : List String)
  | text (s : String)
  | other
deriving DecidableEq, Repr

/-- The body of `POST /api/cases/from-ia`. -/
structure CaseRequest where
  patient : PatientInfo
  conversation_summary : Option String
  symptoms : Symptoms
  specialty : Field
  risk_level : Option String
  possible_diagnosis : Option String
  recommended_treatment : Option String
  diagnosis_justification : Option String
  appointment_time : Field
deriving DecidableEq, Repr

/-- The conversion of the symptoms to `symptomsArray` (lines 385-389). -/
def symptomsArray : Symptoms → List String
  | .list items => items
  | .text s => (jsSplitComma s).map jsTrim
  | .other => []

/-- The hexadecimal digit, lower case, of a number below 16. -/
def hexDigit (n : Nat) : Char :=
  if n < 10 then Char.ofNat (48 + n) else Char.ofNat (87 + n)

/-- The text `JSON.stringify` writes for one character of a string
(QuoteJSONString of ECMAScript). -/
def escapeChar (c : Char) : List Char :=
  if c = '"' then ['\\', '"']
  else if c = '\\' then ['\\', '\\']
  else if c.toNat = 0x08 then ['\\', 'b']
  else if c.toNat = 0x0C then ['\\', 'f']
  else if c.toNat = 0x0A then ['\\', 'n']
  else if c.toNat = 0x0D then ['\\', 'r']
  else if c.toNat = 0x09 then ['\\', 't']
  else if c.toNat < 0x20 then
    ['\\', 'u', '0', '0', hexDigit (c.toNat / 16), hexDigit (c.toNat % 16)]
  else [c]

/-- The text `JSON.stringify` writes for a string, quotes included. -/
def quoteChars (cs : List Char) : List Char :=
  '"' :: (cs.flatMap escapeChar ++ ['"'])

/-- The text `JSON.stringify` writes for the items of an array of strings. -/
def joinItems : List String → List Char
  | [] => []
  | [x] => quoteChars x.data
  | x :: y :: rest => quoteChars x.data ++ ',' :: joinItems (y :: rest)

/-- `JSON.stringify` on an array of strings. -/
def jsonStringify (xs : List String) : String :=
  String.mk ('[' :: (joinItems xs ++ [']']))

/-- The responses of the case-creation handler. -/
inductive CaseOutcome where
  | missingAppointment
  | noDoctor
  | created (newCase : Case) (newAppointment : Appointment)
deriving DecidableEq, Repr

/-- HTTP status of a case-creation response. -/
def CaseOutcome.status : CaseOutcome → Nat
  | .missingAppointment => 400
  | .noDoctor => 400
  | .created _ _ => 200

/-- The `message` of a case-creation response. -/
def CaseOutcome.message : CaseOutcome → String
  | .missingAppointment => "El usuario debe elegir una fecha y hora para la cita."
  | .noDoctor => "No existe médico para esa especialidad"
  | .created _ _ => "Caso clínico registrado y cita confirmada."

/-- Step 1 of the handler (lines 349-366): the first patient with the document
number, or a new row inserted for it. -/
def findOrCreatePatient (s : Store) (info : PatientInfo) : Patient × Store :=
  match findPatient s.patients info.dni with
  | none =>
    let row : Patient :=
      { id := freshId (s.patients.map (·.id)),
        full_name := info.nombres ++ " " ++ info.apellidos,
        document_number := info.dni,
        whatsapp_number := info.whatsapp,
        email := info.email }
    (row, { s with patients := s.patients ++ [row] })
  | some p => (p, s)

/-- The expression `(specialty || "Medicina General").trim()`. -/
def normalizedSpecialty (specialty : Field) : String :=
  jsTrim (if falsy specialty then "Medicina General" else specialty.getD "")

/-- The query `SELECT * FROM users WHERE LOWER(specialty) = LOWER($1) LIMIT 1`,
where `lower` is the function `LOWER` of the database.  Of several matching
rows the database may return any; the embedding returns the first. -/
def findDoctor (lower : String → String) (us : List User) (specialty : String) :
    Option User :=
  us.find? (fun u => decide (lower u.specialty = lower specialty))

/-- The case-creation handler (`src/server.js`, lines 327-437).  `lower` is the
function `LOWER` of the database and `createdAt` the `created_at` the database
gives the inserted case. -/
def createCaseFromIa (lower : String → String) (s : Store) (createdAt : Nat)
    (req : CaseRequest) : CaseOutcome × Store :=
  if falsy req.appointment_time then (.missingAppointment, s)
  else
    let found := findOrCreatePatient s req.patient
    let patientRecord := found.1
    let s1 := found.2
    let specialty := normalizedSpecialty req.specialty
    match findDoctor lower s1.users specialty with
    | none => (.noDoctor, s1)
    | some doctor =>
      let newCase : Case :=
        { id := freshId (s1.cases.map (·.id)),
          patient_id := patientRecord.id,
          assigned_doctor_id := doctor.id,
          specialty := specialty,
          risk_level := req.risk_level,
          status := "REGISTRADO",
          ai_summary := req.conversation_summary,
          ai_symptoms := jsonStringify (symptomsArray req.symptoms),
          possible_diagnosis := req.possible_diagnosis,
          recommended_treatment := req.recommended_treatment,
          diagnosis_justification := req.diagnosis_justification,
          estimated_price := 8.00,
          created_at := createdAt }
      let newAppointment : Appointment :=
        { id := freshId (s1.appointments.map (·.id)),
          case_id := newCase.id,
          patient_id := patientRecord.id,
          doctor_id := doctor.id,
          specialty := specialty,
          scheduled_date := req.appointment_time.getD "",
          status := "CONFIRMADA",
          price := 8.00 }
      (.created newCase newAppointment,
        { s1 with cases := s1.cases ++ [newCase],
                  appointments := s1.appointments ++ [newAppointment] })

/-! ## `GET /api/cases` -/

/-- Value of a hexadecimal digit. -/
def hexVal (c : Char) : Option Nat :=
  let n := c.toNat
  if 48 ≤ n ∧ n ≤ 57 then some (n - 48)
  else if 97 ≤ n ∧ n ≤ 102 then some (n - 87)
  else if 65 ≤ n ∧ n ≤ 70 then some (n - 55)
  else none

/-- JSON insignificant white space. -/
def isJsonSpace (c : Char) : Bool :=
  c = ' ' || c = '\t' || c = '\n' || c = '\r'

/-- Where the reader of a JSON array of strings stands. -/
inductive ReadState where
  /-- Before the opening bracket. -/
  | start
  /-- After the opening bracket: a string or the closing bracket. -/
  | first
  /-- After a comma: a string. -/
  | item
  /-- Inside a string; `cur` holds its characters so far, last first. -/
  | str (cur : List Char)
  /-- Inside a string, after a backslash. -/
  | esc (cur : List Char)
  /-- Inside a `\u` escape, after `k` hexadecimal digits of value `v`. -/
  | hex (cur : List Char) (k v : Nat)
  /-- After a string: a comma or the closing bracket. -/
  | after
  /-- After the closing bracket. -/
  | done
deriving DecidableEq, Repr

/-- One character of `JSON.parse` on a text that is an array of strings; `out`
holds the strings read so far, last first.  `none` is a text that is not an
array of strings, or whose `\u` escape is half of a surrogate pair. -/
def readChar (st : ReadState) (out : List String) (c : Char) :
    Option (ReadState × List String) :=
  match st with
  | .start =>
    if isJsonSpace c then some (.start, out)
    else if c = '[' then some (.first, out) else none
  | .first =>
    if isJsonSpace c then some (.first, out)
    else if c = '"' then some (.str [], out)
    else if c = ']' then some (.done, out) else none
  | .item =>
    if isJsonSpace c then some (.item, out)
    else if c = '"' then some (.str [], out) else none
  | .str cur =>
    if c = '"' then some (.after, String.mk cur.reverse :: out)
    else if c = '\\' then some (.esc cur, out)
    else if c.toNat < 0x20 then none
    else some (.str (c :: cur), out)
  | .esc cur =>
    if c = '"' then some (.str ('"' :: cur), out)
    else if c = '\\' then some (.str ('\\' :: cur), out)
    else if c = '/' then some (.str ('/' :: cur), out)
    else if c = 'b' then some (.str (Char.ofNat 0x08 :: cur), out)
    else if c = 'f' then some (.str (Char.ofNat 0x0C :: cur), out)
    else if c = 'n' then some (.str (Char.ofNat 0x0A :: cur), out)
    else if c = 'r' then some (.str (Char.ofNat 0x0D :: cur), out)
    else if c = 't' then some (.str (Char.ofNat 0x09 :: cur), out)
    else if c = 'u' then some (.hex cur 0 0, out)
    else none
  | .hex cur k v =>
    match hexVal c with
    | none => none
    | some d =>
      let w := 16 * v + d
      if k < 3 then some (.hex cur (k + 1) w, out)
      else if 0xD800 ≤ w ∧ w ≤ 0xDFFF then none
      else some (.str (Char.ofNat w :: cur), out)
  | .after =>
    if isJsonSpace c then some (.after, out)
    else if c = ',' then some (.item, out)
    else if c = ']' then some (.done, out) else none
  | .done =>
    if isJsonSpace c then some (.done, out) else none

/-- The reader run over a text from a given state. -/
def readFrom (st : ReadState) (out : List String) : List Char → Option (ReadState × List String)
  | [] => some (st, out)
  | c :: cs =>
    match readChar st out c with
    | none => none
    | some next => readFrom next.1 next.2 cs

/-- `JSON.parse` on a text that is an array of strings; `none` when the text is
not one. -/
def parseStringArray (text : String) : Option (List String) :=
  match readFrom .start [] text.data with
  | some (.done, out) => some out.reverse
  | _ => none

/-- The body of the `forEach` of the listing (lines 455-461): the parsed
column, or the empty list when parsing throws. -/
def readSymptoms (text : String) : List String :=
  (parseStringArray text).getD []

/-- A row of the case listing: the case with its parsed symptoms and the two
columns joined from `patients`. -/
structure CaseView where
  row : Case
  ai_symptoms : List String
  patient_name : String
  dni : String
deriving DecidableEq, Repr

/-- The listing `GET /api/cases` of the doctor `userId` (lines 443-464): the
cases joined with their patients, newest first. -/
def listCases (s : Store) (userId : Nat) : List CaseView :=
  let joined := s.cases.flatMap (fun c =>
    (s.patients.filter (fun p => decide (p.id = c.patient_id))).map (fun p => (c, p)))
  let mine := joined.filter (fun cp => decide (cp.1.assigned_doctor_id = userId))
  let sorted := mine.insertionSort (fun a b => b.1.created_at ≤ a.1.created_at)
  sorted.map (fun cp =>
    { row := cp.1, ai_symptoms := readSymptoms cp.1.ai_symptoms,
      patient_name := cp.2.full_name, dni := cp.2.document_number })

/-! ## Sample data -/

/-- An instance of the function `LOWER` of the database: the folding of the
letters `A` to `Z`, which is how `LOWER` acts under the C locale. -/
def lowerAscii (s : String) : String :=
  String.mk (s.data.map Char.toLower)

/-- The registered patient of the samples. -/
def ana : Patient :=
  { id := 1, full_name := "Ana Paz", document_number := "87654321",
    whatsapp_number := none, email := some "ana@unmsm.edu.pe" }

/-- The older of the two codes of the samples. -/
def firstCode : VerificationCode :=
  { id := 1, patient_id := 1, code := "111111", created_at := 10, expires_at := 60010,
    is_used := false }

/-- The newer of the two codes of the samples. -/
def secondCode : VerificationCode :=
  { id := 2, patient_id := 1, code := "222222", created_at := 20, expires_at := 60020,
    is_used := false }

/-- The doctor of the samples. -/
def doctorX : User :=
  { id := 7, name := "Dr. X", email := "x@medisense.ai", password_hash := "$2a$10$",
    specialty := "Cardiología", is_active := true }

/-- A store with one patient holding a single unused code. -/
def oneCode : Store :=
  { patients := [ana], codes := [secondCode], users := [doctorX], cases := [],
    appointments := [] }

/-- A store with one patient holding two unused codes. -/
def twoCodes : Store :=
  { patients := [ana], codes := [firstCode, secondCode], users := [doctorX], cases := [],
    appointments := [] }

/-- A triage request for a patient the store does not know. -/
def triage : CaseRequest :=
  { patient := { dni := "12345678", nombres := "Luz", apellidos := "Rojas",
                 whatsapp := none, email := none },
    conversation_summary := some "dolor en el pecho",
    symptoms := .text "fever, cough",
    specialty := some "Cardiología",
    risk_level := some "ALTO",
    possible_diagnosis := none,
    recommended_treatment := none,
    diagnosis_justification := none,
    appointment_time := some "2025-01-01T10:00:00Z" }

/-- The triage request with its symptoms sent as an array. -/
def triageList : CaseRequest :=
  { triage with symptoms := .list [" fever", "cough "] }

/-- The case the triage request creates in the store `twoCodes`. -/
def triageCase : Case :=
  { id := 1, patient_id := 2, assigned_doctor_id := 7, specialty := "Cardiología",
    risk_level := some "ALTO", status := "REGISTRADO",
    ai_summary := some "dolor en el pecho", ai_symptoms := "[\"fever\",\"cough\"]",
    possible_diagnosis := none, recommended_treatment := none,
    diagnosis_justification := none, estimated_price := 8.00, created_at := 5 }

/-- The appointment the triage request creates in the store `twoCodes`. -/
def triageAppointment : Appointment :=
  { id := 1, case_id := 1, patient_id := 2, doctor_id := 7, specialty := "Cardiología",
    scheduled_date := "2025-01-01T10:00:00Z", status := "CONFIRMADA", price := 8.00 }

/-! # Theorems -/

/-! ## The scan for the most recently created unused code -/

theorem foldl_newer_some (l : List VerificationCode) (b : VerificationCode) :
    ∃ r, l.foldl newer (some b) = some r := by
  induction l generalizing b with
  | nil => exact ⟨b, rfl⟩
  | cons a t ih =>
    simp only [List.foldl_cons, newer]
    split
    · exact ih a
    · exact ih b

theorem foldl_newer_eq_none (l : List VerificationCode) :
    l.foldl newer none = none ↔ l = [] := by
  cases l with
  | nil => simp
  | cons a t =>
    obtain ⟨r, hr⟩ := foldl_newer_some t a
    simp [newer, hr]

theorem foldl_newer_mem (l : List VerificationCode) (acc : Option VerificationCode)
    (r : VerificationCode) (h : l.foldl newer acc = some r) : r ∈ l ∨ acc = some r := by
  induction l generalizing acc with
  | nil => right; simpa using h
  | cons a t ih =>
    rw [List.foldl_cons] at h
    rcases ih _ h with hm | hacc
    · left; exact List.mem_cons_of_mem _ hm
    · cases acc with
      | none =>
        simp only [newer, Option.some.injEq] at hacc
        left; rw [hacc]; exact List.mem_cons_self _ _
      | some b =>
        simp only [newer] at hacc
        split at hacc
        · simp only [Option.some.injEq] at hacc
          left; rw [hacc]; exact List.mem_cons_self _ _
        · right; exact hacc

theorem foldl_newer_ge (l : List VerificationCode) (acc : Option VerificationCode)
    (r : VerificationCode) (h : l.foldl newer acc = some r) :
    (∀ x ∈ l, x.created_at ≤ r.created_at) ∧
      (∀ b, acc = some b → b.created_at ≤ r.created_at) := by
  induction l generalizing acc with
  | nil =>
    simp only [List.foldl_nil] at h
    refine ⟨by simp, ?_⟩
    intro b hb
    rw [hb] at h
    simp only [Option.some.injEq] at h
    rw [h]
  | cons a t ih =>
    rw [List.foldl_cons] at h
    obtain ⟨h1, h2⟩ := ih _ h
    cases acc with
    | none =>
      refine ⟨?_, by simp⟩
      intro x hx
      rcases List.mem_cons.mp hx with rfl | hx
      · exact h2 x rfl
      · exact h1 x hx
    | some b =>
      by_cases hlt : b.created_at < a.created_at
      · have h3 := h2 a (by simp [newer, hlt])
        refine ⟨?_, ?_⟩
        · intro x hx
          rcases List.mem_cons.mp hx with rfl | hx
          · exact h3
          · exact h1 x hx
        · intro b2 hb2
          simp only [Option.some.injEq] at hb2
          subst hb2
          omega
      · have h3 := h2 b (by simp [newer, hlt])
        refine ⟨?_, ?_⟩
        · intro x hx
          rcases List.mem_cons.mp hx with rfl | hx
          · omega
          · exact h1 x hx
        · intro b2 hb2
          simp only [Option.some.injEq] at hb2
          subst hb2
          exact h3

/-- The row the query returns is an unused row of the patient, and no unused
row of the patient was created later. -/
theorem latestUnusedCode_spec (cs : List VerificationCode) (pid : Nat)
    (r : VerificationCode) (h : latestUnusedCode cs pid = some r) :
    r ∈ cs ∧ r.patient_id = pid ∧ r.is_used = false ∧
      ∀ x ∈ cs, x.patient_id = pid → x.is_used = false → x.created_at ≤ r.created_at := by
  unfold latestUnusedCode at h
  have hm := foldl_newer_mem _ _ _ h
  have hg := (foldl_newer_ge _ _ _ h).1
  rcases hm with hm | hm
  · rw [List.mem_filter] at hm
    obtain ⟨hin, hp⟩ := hm
    simp only [Bool.and_eq_true, decide_eq_true_eq, Bool.not_eq_true, Bool.not_eq_eq_eq_not,
      Bool.not_true] at hp
    refine ⟨hin, hp.1, hp.2, ?_⟩
    intro x hx hxp hxu
    apply hg
    rw [List.mem_filter]
    exact ⟨hx, by simp [hxp, hxu]⟩
  · cases hm

theorem latestUnusedCode_eq_none (cs : List VerificationCode) (pid : Nat) :
    latestUnusedCode cs pid = none ↔
      ∀ x ∈ cs, x.patient_id = pid → x.is_used = true := by
  unfold latestUnusedCode
  rw [foldl_newer_eq_none, List.filter_eq_nil_iff]
  constructor
  · intro h x hx hp
    have := h x hx
    simpa [hp] using this
  · intro h x hx
    by_cases hp : x.patient_id = pid
    · simp [hp, h x hx hp]
    · simp [hp]

theorem latestUnusedCode_append_newer (cs : List VerificationCode) (pid : Nat)
    (row : VerificationCode) (hpid : row.patient_id = pid) (hun : row.is_used = false)
    (hnewer : ∀ x ∈ cs, x.patient_id = pid → x.is_used = false →
      x.created_at < row.created_at) :
    latestUnusedCode (cs ++ [row]) pid = some row := by
  unfold latestUnusedCode
  rw [List.filter_append, List.foldl_append]
  have hrow : List.filter (fun r => decide (r.patient_id = pid) && !r.is_used) [row] = [row] := by
    simp [hpid, hun]
  rw [hrow, List.foldl_cons, List.foldl_nil]
  cases hb : List.foldl newer none
      (List.filter (fun r => decide (r.patient_id = pid) && !r.is_used) cs) with
  | none => rfl
  | some b =>
    have hs := latestUnusedCode_spec cs pid b hb
    have := hnewer b hs.1 hs.2.1 hs.2.2.1
    simp [newer, this]

theorem mem_markUsed (cs : List VerificationCode) (id : Nat) (y : VerificationCode) :
    y ∈ markUsed cs id ↔
      ∃ x ∈ cs, y = if x.id = id then { x with is_used := true } else x := by
  unfold markUsed
  rw [List.mem_map]
  constructor
  · rintro ⟨x, hx, rfl⟩; exact ⟨x, hx, rfl⟩
  · rintro ⟨x, hx, rfl⟩; exact ⟨x, hx, rfl⟩

theorem findPatient_some (ps : List Patient) (d : String) (p : Patient)
    (h : findPatient ps d = some p) : p ∈ ps ∧ p.document_number = d := by
  unfold findPatient at h
  exact ⟨List.mem_of_find?_eq_some h, by simpa using List.find?_some h⟩

theorem findPatient_eq_none (ps : List Patient) (d : String) :
    findPatient ps d = none ↔ ∀ p ∈ ps, p.document_number ≠ d := by
  unfold findPatient
  simp [List.find?_eq_none]

/-! ## Verification of a code -/

theorem verifyCode_present (s : Store) (now : Nat) (d c : String) (hd : d ≠ "")
    (hc : c ≠ "") :
    verifyCode s now (some d) (some c) =
      match findPatient s.patients d with
      | none => (.notFound, s)
      | some patient =>
        match latestUnusedCode s.codes patient.id with
        | none => (.noActiveCode, s)
        | some record =>
          if record.code ≠ c then (.incorrectCode, s)
          else if now > record.expires_at then (.expired, s)
          else (.verified patient, { s with codes := markUsed s.codes record.id }) := by
  simp [verifyCode, falsy, hd, hc]

/-- Claim C1 fails as stated.  In the store `twoCodes` the patient 87654321
holds two unused codes.  The newer one, 222222, is not expired at time 50 and the
first verification with it succeeds; the second verification with 222222 is
decided against the older code 111111 and answers "Código incorrecto", not
"No hay código activo para este paciente". -/
theorem verify_twice_counterexample :
    findPatient twoCodes.patients "87654321" = some ana ∧
      latestUnusedCode twoCodes.codes ana.id = some secondCode ∧
      secondCode.code = "222222" ∧ 50 ≤ secondCode.expires_at ∧
      (verifyCode twoCodes 50 (some "87654321") (some "222222")).1 = .verified ana ∧
      (verifyCode (verifyCode twoCodes 50 (some "87654321") (some "222222")).2 50
        (some "87654321") (some "222222")).1 = .incorrectCode := by
  decide

/-- Claim C1, amended.  Let the request carry a non-empty document number `d`
and a non-empty code `c`, let `p` be the patient found for `d`, and let the
patient's most recently created unused code `record` have value `c` and not be
expired at time `now`.  Then the verification answers verified with `p` and marks
the rows with the id of `record` used, and a second verification with the same
`d` and `c`, at any time `later`, answers "No hay código activo para este
paciente" exactly when the patient had no other unused code (no unused row of
the patient with another id). -/
theorem verify_twice (s : Store) (now later : Nat) (d c : String) (p : Patient)
    (record : VerificationCode) (hd : d ≠ "") (hc : c ≠ "")
    (hp : findPatient s.patients d = some p)
    (hrec : latestUnusedCode s.codes p.id = some record)
    (hcode : record.code = c) (hlive : now ≤ record.expires_at) :
    verifyCode s now (some d) (some c)
        = (.verified p, { s with codes := markUsed s.codes record.id }) ∧
      ((verifyCode (verifyCode s now (some d) (some c)).2 later (some d) (some c)).1
          = .noActiveCode ↔
        ∀ x ∈ s.codes, x.patient_id = p.id → x.is_used = false → x.id = record.id) := by
  have h1 : verifyCode s now (some d) (some c)
      = (.verified p, { s with codes := markUsed s.codes record.id }) := by
    rw [verifyCode_present s now d c hd hc, hp]
    simp only [hrec, hcode, ne_eq, not_true_eq_false, if_false, gt_iff_lt]
    rw [if_neg (by omega)]
  refine ⟨h1, ?_⟩
  rw [h1, verifyCode_present _ later d c hd hc]
  simp only [hp]
  constructor
  · intro h x hx hxp hxu
    cases hl : latestUnusedCode (markUsed s.codes record.id) p.id with
    | some r2 =>
      rw [hl] at h
      simp only at h
      split at h
      · cases h
      · split at h <;> cases h
    | none =>
      rw [latestUnusedCode_eq_none] at hl
      by_contra hne
      have hmem : x ∈ markUsed s.codes record.id := by
        rw [mem_markUsed]; exact ⟨x, hx, by rw [if_neg hne]⟩
      have := hl x hmem hxp
      rw [hxu] at this
      cases this
  · intro h
    have hl : latestUnusedCode (markUsed s.codes record.id) p.id = none := by
      rw [latestUnusedCode_eq_none]
      intro y hy hyp
      rw [mem_markUsed] at hy
      obtain ⟨x, hx, rfl⟩ := hy
      by_cases hid : x.id = record.id
      · rw [if_pos hid]
      · rw [if_neg hid] at hyp ⊢
        cases hu : x.is_used with
        | true => rfl
        | false => exact absurd (h x hx hyp hu) hid
    rw [hl]

/-- Sample for claim C1: with a single unused code the second verification finds no active code. -/
theorem verify_twice_witness :
    verifyCode oneCode 50 (some "87654321") (some "222222")
        = (.verified ana, { oneCode with codes := markUsed oneCode.codes 2 }) ∧
      (verifyCode (verifyCode oneCode 50 (some "87654321") (some "222222")).2 51
        (some "87654321") (some "222222")).1 = .noActiveCode :=
  ⟨(verify_twice oneCode 50 51 "87654321" "222222" ana secondCode (by decide) (by decide)
      (by decide) (by decide) (by decide) (by decide)).1,
   (verify_twice oneCode 50 51 "87654321" "222222" ana secondCode (by decide) (by decide)
      (by decide) (by decide) (by decide) (by decide)).2.mpr (by decide)⟩

/-- Claim C2.  Let the request carry a non-empty document number `d` whose
patient `p` exists, and let the patient have an unused code, `record` being the
most recently created one.  Then for every non-empty submitted code different
from the value of `record`, and for every reading `now` of the clock (before, at
or after the expiry of `record`), the verification answers "Código incorrecto"
and leaves the store as it was; in particular it never answers "El código ha
expirado" for a wrong code. -/
theorem wrong_code_is_incorrect (s : Store) (now : Nat) (d code : String) (p : Patient)
    (record : VerificationCode) (hd : d ≠ "") (hcode : code ≠ "")
    (hp : findPatient s.patients d = some p)
    (hrec : latestUnusedCode s.codes p.id = some record)
    (hne : code ≠ record.code) :
    verifyCode s now (some d) (some code) = (.incorrectCode, s) := by
  rw [verifyCode_present s now d code hd hcode, hp]
  simp only [hrec]
  rw [if_pos (fun h => hne h.symm)]

/-- Sample for claim C2: the older code is a wrong code, also after the expiry of the newer one. -/
theorem wrong_code_is_incorrect_witness :
    latestUnusedCode twoCodes.codes ana.id = some secondCode ∧
      verifyCode twoCodes 70000 (some "87654321") (some "111111")
        = (.incorrectCode, twoCodes) :=
  ⟨by decide, wrong_code_is_incorrect twoCodes 70000 "87654321" "111111" ana secondCode
    (by decide) (by decide) (by decide) (by decide) (by decide)⟩

/-- Claim C3.  Let the request carry a non-empty document number `d` whose
patient `p` exists and a non-empty code `c` equal to the value of the patient's
most recently created unused code `record`.  If the current time is strictly
later than the `expires_at` of `record`, the verification answers "El código ha
expirado", which is not the verified answer, and the store, with every
verification-code row and its `is_used` flag, is unchanged. -/
theorem expired_code_rejected (s : Store) (now : Nat) (d c : String) (p : Patient)
    (record : VerificationCode) (hd : d ≠ "") (hc : c ≠ "")
    (hp : findPatient s.patients d = some p)
    (hrec : latestUnusedCode s.codes p.id = some record)
    (hcode : record.code = c) (hlate : record.expires_at < now) :
    verifyCode s now (some d) (some c) = (.expired, s) := by
  rw [verifyCode_present s now d c hd hc, hp]
  simp only [hrec, hcode, ne_eq, not_true_eq_false, if_false, gt_iff_lt]
  rw [if_pos hlate]

/-- Sample for claim C3: the right code one millisecond after its expiry. -/
theorem expired_code_rejected_witness :
    secondCode.expires_at < 60021 ∧
      verifyCode twoCodes 60021 (some "87654321") (some "222222") = (.expired, twoCodes) :=
  ⟨by decide, expired_code_rejected twoCodes 60021 "87654321" "222222" ana secondCode
    (by decide) (by decide) (by decide) (by decide) (by decide) (by decide)⟩

/-! ## The generated code -/

theorem toDigitsCore_succ (f n : Nat) (ds : List Char) :
    Nat.toDigitsCore 10 (f + 1) n ds =
      if n / 10 = 0 then Nat.digitChar (n % 10) :: ds
      else Nat.toDigitsCore 10 f (n / 10) (Nat.digitChar (n % 10) :: ds) := by
  simp [Nat.toDigitsCore]

/-- The decimal text of a number of six digits. -/
theorem repr_six_digits (k : Nat) (hlo : 100000 ≤ k) (hhi : k ≤ 999999) :
    Nat.repr k = String.mk
      [Nat.digitChar (k / 100000), Nat.digitChar (k / 10000 % 10),
       Nat.digitChar (k / 1000 % 10), Nat.digitChar (k / 100 % 10),
       Nat.digitChar (k / 10 % 10), Nat.digitChar (k % 10)] := by
  have hf : k + 1 = (k - 5) + 1 + 1 + 1 + 1 + 1 + 1 := by omega
  unfold Nat.repr Nat.toDigits
  rw [hf, toDigitsCore_succ, if_neg (by omega), toDigitsCore_succ, if_neg (by omega),
    toDigitsCore_succ, if_neg (by omega), toDigitsCore_succ, if_neg (by omega),
    toDigitsCore_succ, if_neg (by omega), toDigitsCore_succ, if_pos (by omega)]
  have e1 : k / 10 / 10 / 10 / 10 / 10 % 10 = k / 100000 := by omega
  have e2 : k / 10 / 10 / 10 / 10 % 10 = k / 10000 % 10 := by omega
  have e3 : k / 10 / 10 / 10 % 10 = k / 1000 % 10 := by omega
  have e4 : k / 10 / 10 % 10 = k / 100 % 10 := by omega
  rw [e1, e2, e3, e4]
  rfl

theorem digitChar_isDigit (d : Nat) (h : d < 10) : (Nat.digitChar d).isDigit = true := by
  interval_cases d <;> rfl

theorem digitChar_ne_zero (d : Nat) (h1 : 1 ≤ d) (h : d < 10) : Nat.digitChar d ≠ '0' := by
  interval_cases d <;> decide

theorem roundHalfEven_le (q : ℚ) (n : ℤ) (h : q ≤ n) : roundHalfEven q ≤ n := by
  unfold roundHalfEven
  simp only
  have hf : Int.floor q ≤ n := by
    have := Int.floor_le q
    exact_mod_cast Int.floor_le_floor h |>.trans (by simp)
  have hfl := Int.floor_le q
  have hlt := Int.lt_floor_add_one q
  split
  · exact hf
  · have hne : Int.floor q ≠ n ∨ q - Int.floor q = 0 := by
      by_cases hq : Int.floor q = n
      · right
        rw [hq]; 
        have : (n:ℚ) ≤ q := by rw [← hq]; exact hfl
        linarith
      · left; exact hq
    rcases hne with hne | h0
    · have : Int.floor q + 1 ≤ n := by omega
      split
      · exact this
      · split
        · exact hf
        · exact this
    · rename_i h1
      rw [h0] at h1
      norm_num at h1

theorem le_roundHalfEven (q : ℚ) (n : ℤ) (h : (n : ℚ) ≤ q) : n ≤ roundHalfEven q := by
  unfold roundHalfEven
  simp only
  have hf : n ≤ Int.floor q := Int.le_floor.mpr h
  split
  · exact hf
  · split
    · omega
    · split
      · exact hf
      · omega

theorem roundHalfEven_le_pred (q : ℚ) (n : ℤ) (h : q < (n : ℚ) - 1 / 2) :
    roundHalfEven q ≤ n - 1 := by
  unfold roundHalfEven
  simp only
  have hfl := Int.floor_le q
  have hf : Int.floor q ≤ n - 1 := by
    have : Int.floor q < n := by
      rw [Int.floor_lt]; linarith
    omega
  by_cases hq : Int.floor q = n - 1
  · have : q - (Int.floor q : ℚ) < 1 / 2 := by
      rw [hq]; push_cast; linarith
    rw [if_pos this]; exact hf
  · have : Int.floor q + 1 ≤ n - 1 := by omega
    split
    · exact hf
    · split
      · exact this
      · split
        · exact hf
        · exact this

theorem two_zpow_pos (e : ℤ) : (0 : ℚ) < 2 ^ e := zpow_pos (by norm_num) e

theorem toDouble_le (x m : ℚ) (N : ℤ) (hm : m = N * 2 ^ ulpExponent x) (hx : x ≤ m) :
    toDouble x ≤ m := by
  unfold toDouble
  rw [hm]
  have hpos := two_zpow_pos (ulpExponent x)
  have hq : x / 2 ^ ulpExponent x ≤ N := by
    rw [div_le_iff₀ hpos, ← hm]; exact hx
  have := roundHalfEven_le _ _ hq
  have hc : ((roundHalfEven (x / 2 ^ ulpExponent x) : ℤ) : ℚ) ≤ (N : ℚ) := by exact_mod_cast this
  exact mul_le_mul_of_nonneg_right hc hpos.le

theorem le_toDouble (x m : ℚ) (N : ℤ) (hm : m = N * 2 ^ ulpExponent x) (hx : m ≤ x) :
    m ≤ toDouble x := by
  unfold toDouble
  rw [hm]
  have hpos := two_zpow_pos (ulpExponent x)
  have hq : (N : ℚ) ≤ x / 2 ^ ulpExponent x := by
    rw [le_div_iff₀ hpos, ← hm]; exact hx
  have := le_roundHalfEven _ _ hq
  have hc : (N : ℚ) ≤ ((roundHalfEven (x / 2 ^ ulpExponent x) : ℤ) : ℚ) := by exact_mod_cast this
  exact mul_le_mul_of_nonneg_right hc hpos.le

theorem toDouble_eq (x : ℚ) (N : ℤ) (h : x = N * 2 ^ ulpExponent x) : toDouble x = x :=
  le_antisymm (toDouble_le x x N h le_rfl) (le_toDouble x x N h le_rfl)

theorem ulpExponent_le (x : ℚ) (t : ℤ) (h0 : 0 < x) (hx : x < 2 ^ t) (ht : -1021 ≤ t) :
    ulpExponent x ≤ t - 53 := by
  unfold ulpExponent
  rw [abs_of_pos h0]
  have : Int.log 2 x < t := (Int.lt_zpow_iff_log_lt (by norm_num) h0).mp (by exact_mod_cast hx)
  omega

theorem le_ulpExponent (x : ℚ) (t : ℤ) (h0 : 0 < x) (hx : 2 ^ t ≤ x) :
    t - 52 ≤ ulpExponent x := by
  unfold ulpExponent
  rw [abs_of_pos h0]
  have : t ≤ Int.log 2 x := (Int.zpow_le_iff_le_log (by norm_num) h0).mp (by exact_mod_cast hx)
  omega

theorem dyadic_multiple (a : ℤ) (k : ℕ) (e : ℤ) (h : e ≤ -(k : ℤ)) :
    ∃ N : ℤ, (a : ℚ) / 2 ^ k = N * 2 ^ e := by
  refine ⟨a * 2 ^ (-(k : ℤ) - e).toNat, ?_⟩
  have h1 : ((2 : ℚ) ^ (-(k : ℤ) - e).toNat) = 2 ^ (-(k : ℤ) - e) := by
    rw [← zpow_natCast]; congr 1; omega
  push_cast
  rw [h1, mul_assoc, ← zpow_add₀ (by norm_num : (2 : ℚ) ≠ 0)]
  have : -(k : ℤ) - e + e = -(k : ℤ) := by ring
  rw [this, zpow_neg, zpow_natCast]
  ring

theorem toDouble_nonneg (x : ℚ) (h : 0 ≤ x) : 0 ≤ toDouble x :=
  le_toDouble x 0 0 (by simp) h

/-- A number with few enough binary digits is a binary64 number. -/
theorem toDouble_dyadic (a k : ℕ) (t : ℤ) (hlt : (a : ℚ) / 2 ^ k < 2 ^ t)
    (ht : -1021 ≤ t) (hk : t + k ≤ 53) : toDouble ((a : ℚ) / 2 ^ k) = (a : ℚ) / 2 ^ k := by
  rcases Nat.eq_zero_or_pos a with rfl | ha
  · simp only [Nat.cast_zero, zero_div]
    exact toDouble_eq 0 0 (by simp)
  · have hpos : (0 : ℚ) < (a : ℚ) / 2 ^ k := by positivity
    have he := ulpExponent_le _ t hpos hlt ht
    obtain ⟨N, hN⟩ := dyadic_multiple (a : ℤ) k (ulpExponent ((a : ℚ) / 2 ^ k)) (by omega)
    exact toDouble_eq _ N (by rw [← hN]; push_cast; rfl)

/-- A binary64 number below 1 is at most `1 - 2⁻⁵³`. -/
theorem double_lt_one (r : ℚ) (hd : toDouble r = r) (h1 : r < 1) : r ≤ 1 - 1 / 2 ^ 53 := by
  by_cases hhalf : r < 1 / 2
  · have : (1 : ℚ) / 2 ≤ 1 - 1 / 2 ^ 53 := by norm_num
    linarith
  · have hr : (1 : ℚ) / 2 ≤ r := not_lt.mp hhalf
    have h0 : 0 < r := by linarith
    have he1 : ulpExponent r ≤ 0 - 53 :=
      ulpExponent_le r 0 h0 (by simpa using h1) (by norm_num)
    have he2 : (-1 : ℤ) - 52 ≤ ulpExponent r :=
      le_ulpExponent r (-1) h0 (by rw [zpow_neg_one]; linarith)
    have he : ulpExponent r = -53 := by omega
    unfold toDouble at hd
    rw [he] at hd
    set K := roundHalfEven (r / 2 ^ (-53 : ℤ)) with hK
    have hpow : ((2 : ℚ) ^ (-53 : ℤ)) = 1 / 2 ^ 53 := by
      rw [zpow_neg]; norm_num
    rw [hpow] at hd
    have hKlt : (K : ℚ) < 2 ^ 53 := by
      have : (K : ℚ) * (1 / 2 ^ 53) < 1 := by rw [hd]; exact h1
      have h2 : (0 : ℚ) < 2 ^ 53 := by norm_num
      calc (K : ℚ) = (K : ℚ) * (1 / 2 ^ 53) * 2 ^ 53 := by field_simp
        _ < 1 * 2 ^ 53 := by exact mul_lt_mul_of_pos_right this h2
        _ = 2 ^ 53 := by ring
    have hKle : K ≤ 2 ^ 53 - 1 := by
      have : K < 2 ^ 53 := by exact_mod_cast hKlt
      omega
    have hKq : (K : ℚ) ≤ 2 ^ 53 - 1 := by exact_mod_cast hKle
    rw [← hd]
    have h3 : (0 : ℚ) < 1 / 2 ^ 53 := by norm_num
    calc (K : ℚ) * (1 / 2 ^ 53) ≤ (2 ^ 53 - 1) * (1 / 2 ^ 53) :=
          mul_le_mul_of_nonneg_right hKq h3.le
      _ = 1 - 1 / 2 ^ 53 := by norm_num

/-- The product `r * 900000`, rounded, stays one unit in the last place below
900000 for every binary64 draw `r` below 1. -/
theorem product_le (r : ℚ) (h0 : 0 ≤ r) (h1 : r ≤ 1 - 1 / 2 ^ 53) :
    toDouble (r * 900000) ≤ 900000 - 1 / 2 ^ 33 := by
  have hx : r * 900000 ≤ 900000 - 900000 / 2 ^ 53 := by linarith
  rcases eq_or_lt_of_le (mul_nonneg h0 (by norm_num : (0 : ℚ) ≤ 900000)) with hz | hpos
  · rw [← hz]
    exact le_trans (toDouble_le 0 0 0 (by simp) le_rfl) (by norm_num)
  · by_cases hsmall : r * 900000 < 2 ^ (19 : ℤ)
    · have he := ulpExponent_le _ 19 hpos hsmall (by norm_num)
      obtain ⟨N, hN⟩ := dyadic_multiple (2 ^ 19) 0 (ulpExponent (r * 900000)) (by omega)
      have hm : ((2 : ℚ) ^ 19) = N * 2 ^ ulpExponent (r * 900000) := by
        rw [← hN]; norm_num
      have hle : r * 900000 ≤ (2 : ℚ) ^ 19 := by
        have := hsmall.le
        rwa [zpow_ofNat] at this
      exact le_trans (toDouble_le _ _ N hm hle) (by norm_num)
    · have hbig : (2 : ℚ) ^ (19 : ℤ) ≤ r * 900000 := not_lt.mp hsmall
      have he1 := ulpExponent_le _ 20 hpos
        (lt_of_le_of_lt hx (by norm_num)) (by norm_num)
      have he2 := le_ulpExponent _ 19 hpos hbig
      have he : ulpExponent (r * 900000) = -33 := by omega
      unfold toDouble
      rw [he]
      have hpow : ((2 : ℚ) ^ (-33 : ℤ)) = 1 / 2 ^ 33 := by
        rw [zpow_neg]; norm_num
      rw [hpow]
      have hq : r * 900000 / (1 / 2 ^ 33) < ((900000 * 2 ^ 33 : ℤ) : ℚ) - 1 / 2 := by
        push_cast
        rw [div_lt_iff₀ (by norm_num)]
        have : (900000 : ℚ) - 900000 / 2 ^ 53 < (900000 * 2 ^ 33 - 1 / 2) * (1 / 2 ^ 33) := by
          norm_num
        linarith
      have hround := roundHalfEven_le_pred _ _ hq
      have hc : ((roundHalfEven (r * 900000 / (1 / 2 ^ 33)) : ℤ) : ℚ)
          ≤ ((900000 * 2 ^ 33 - 1 : ℤ) : ℚ) := by exact_mod_cast hround
      have h3 : (0 : ℚ) ≤ 1 / 2 ^ 33 := by norm_num
      calc ((roundHalfEven (r * 900000 / (1 / 2 ^ 33)) : ℤ) : ℚ) * (1 / 2 ^ 33)
          ≤ ((900000 * 2 ^ 33 - 1 : ℤ) : ℚ) * (1 / 2 ^ 33) :=
            mul_le_mul_of_nonneg_right hc h3
        _ = 900000 - 1 / 2 ^ 33 := by push_cast; norm_num

/-- For a binary64 draw in `[0, 1)` the generated code is the decimal text of a
whole number from 100000 to 999999. -/
theorem genCode_eq_repr (r : ℚ) (hd : toDouble r = r) (h0 : 0 ≤ r) (h1 : r < 1) :
    ∃ k : Nat, 100000 ≤ k ∧ k ≤ 999999 ∧ genCode r = Nat.repr k := by
  have hy1 := product_le r h0 (double_lt_one r hd h1)
  have hy0 := toDouble_nonneg (r * 900000) (mul_nonneg h0 (by norm_num))
  set y := toDouble (r * 900000) with hy
  have hpos : (0 : ℚ) < 100000 + y := by linarith
  have hlt : 100000 + y < 2 ^ (20 : ℤ) := by
    have : (900000 : ℚ) - 1 / 2 ^ 33 + 100000 < 2 ^ (20 : ℤ) := by norm_num
    linarith
  have he := ulpExponent_le _ 20 hpos hlt (by norm_num)
  obtain ⟨N1, hN1⟩ := dyadic_multiple 100000 0 (ulpExponent (100000 + y)) (by omega)
  obtain ⟨N2, hN2⟩ := dyadic_multiple (1000000 * 2 ^ 33 - 1) 33 (ulpExponent (100000 + y))
    (by omega)
  have hlo : (100000 : ℚ) ≤ toDouble (100000 + y) :=
    le_toDouble _ _ N1 (by rw [← hN1]; norm_num) (by linarith)
  have hhi : toDouble (100000 + y) ≤ (1000000 : ℚ) - 1 / 2 ^ 33 :=
    toDouble_le _ _ N2 (by rw [← hN2]; norm_num) (by linarith)
  have hflo : (100000 : ℤ) ≤ Int.floor (toDouble (100000 + y)) := by
    rw [Int.le_floor]; exact_mod_cast hlo
  have hfhi : Int.floor (toDouble (100000 + y)) < (1000000 : ℤ) := by
    rw [Int.floor_lt]
    have : (1000000 : ℚ) - 1 / 2 ^ 33 < 1000000 := by norm_num
    push_cast
    linarith
  obtain ⟨k, hk⟩ := Int.eq_ofNat_of_zero_le (le_trans (by norm_num) hflo)
  refine ⟨k, by omega, by omega, ?_⟩
  unfold genCode
  rw [← hy, hk]
  rfl

/-- Every whole number from 100000 to 999999 is generated for some binary64
draw in `[0, 1)`, a multiple of `2⁻²⁰`. -/
theorem genCode_of_draw (n : Nat) (hlo : 100000 ≤ n) (hhi : n ≤ 999999) :
    ∃ r : ℚ, toDouble r = r ∧ 0 ≤ r ∧ r < 1 ∧ genCode r = Nat.repr n := by
  obtain ⟨j, hj⟩ : ∃ j : Nat, j = ((n - 100000) * 32768 + 28124) / 28125 := ⟨_, rfl⟩
  have hj1 : j < 1048576 := by omega
  have hj2 : (n - 100000) * 32768 ≤ j * 28125 := by omega
  have hj3 : j * 28125 < (n - 100000) * 32768 + 28125 := by omega
  have hjq : (j : ℚ) < 1048576 := by exact_mod_cast hj1
  have hr1 : (j : ℚ) / 2 ^ 20 < 1 := by
    rw [div_lt_one (by norm_num)]
    have : (2 : ℚ) ^ 20 = 1048576 := by norm_num
    rw [this]; exact hjq
  refine ⟨(j : ℚ) / 2 ^ 20, toDouble_dyadic j 20 0 (by simpa using hr1) (by norm_num)
    (by norm_num), by positivity, hr1, ?_⟩
  have hprod : (j : ℚ) / 2 ^ 20 * 900000 = ((j * 28125 : ℕ) : ℚ) / 2 ^ 15 := by
    push_cast; ring
  have hprodlt : ((j * 28125 : ℕ) : ℚ) / 2 ^ 15 < 2 ^ (20 : ℤ) := by
    rw [div_lt_iff₀ (by norm_num)]
    push_cast
    norm_num
    linarith
  have hsum : (100000 : ℚ) + ((j * 28125 : ℕ) : ℚ) / 2 ^ 15
      = ((3276800000 + j * 28125 : ℕ) : ℚ) / 2 ^ 15 := by
    push_cast; ring
  have hsumlt : ((3276800000 + j * 28125 : ℕ) : ℚ) / 2 ^ 15 < 2 ^ (20 : ℤ) := by
    rw [div_lt_iff₀ (by norm_num)]
    push_cast
    norm_num
    linarith
  have hfloor : Int.floor (((3276800000 + j * 28125 : ℕ) : ℚ) / 2 ^ 15) = (n : ℤ) := by
    rw [Int.floor_eq_iff]
    constructor
    · rw [le_div_iff₀ (by norm_num)]
      have : n * 32768 ≤ 3276800000 + j * 28125 := by omega
      exact_mod_cast this
    · rw [div_lt_iff₀ (by norm_num)]
      have : 3276800000 + j * 28125 < (n + 1) * 32768 := by omega
      exact_mod_cast this
  unfold genCode
  rw [hprod, toDouble_dyadic _ 15 20 hprodlt (by norm_num) (by norm_num), hsum,
    toDouble_dyadic _ 15 20 hsumlt (by norm_num) (by norm_num), hfloor]
  rfl

theorem toDouble_zero : toDouble 0 = 0 := toDouble_eq 0 0 (by simp)

theorem toDouble_100000 : toDouble 100000 = 100000 := by
  have h := toDouble_dyadic 100000 0 20 (by norm_num) (by norm_num) (by norm_num)
  rw [pow_zero, div_one] at h
  exact_mod_cast h

theorem floor_100000 : Int.floor (100000 : ℚ) = 100000 := by
  rw [Int.floor_eq_iff]; norm_num

theorem toString_100000 : toString (100000 : ℤ) = "100000" := by decide

theorem floor_code_zero :
    Int.floor (toDouble (100000 + toDouble ((0 : ℚ) * 900000))) = 100000 := by
  rw [zero_mul, toDouble_zero, add_zero, toDouble_100000, floor_100000]

theorem genCode_unfold (r : ℚ) :
    genCode r = toString (Int.floor (toDouble (100000 + toDouble (r * 900000)))) := rfl

theorem genCode_zero_a : genCode 0 = toString (100000 : ℤ) := by
  rw [genCode_unfold, floor_code_zero]

theorem genCode_zero : genCode 0 = "100000" := by
  rw [genCode_zero_a]
  exact toString_100000

/-- Claim C5 fails as stated: no draw `r`, a binary64 number with `0 ≤ r < 1`,
generates the six-digit text 000000, since the generated number is at least
100000. -/
theorem all_zero_code_never_generated :
    ¬ ∃ r : ℚ, toDouble r = r ∧ 0 ≤ r ∧ r < 1 ∧ genCode r = "000000" := by
  rintro ⟨r, hd, h0, h1, hr⟩
  obtain ⟨k, hlo, hhi, hk⟩ := genCode_eq_repr r hd h0 h1
  rw [hk, repr_six_digits k hlo hhi] at hr
  have hz : (String.mk [Nat.digitChar (k / 100000), Nat.digitChar (k / 10000 % 10),
       Nat.digitChar (k / 1000 % 10), Nat.digitChar (k / 100 % 10),
       Nat.digitChar (k / 10 % 10), Nat.digitChar (k % 10)]).data.head? = some '0' := by
    rw [hr]; rfl
  simp only [List.head?_cons, Option.some.injEq] at hz
  exact digitChar_ne_zero _ (by omega) (by omega) hz

/-- Claim C5, amended.  Over the draws `r` of `Math.random()`, the binary64
numbers with `0 ≤ r < 1`, the codes send-code can generate are exactly the
decimal texts of the whole numbers 100000 to 999999; every generated code has
exactly six characters, all decimal digits, and does not start with the digit
zero. -/
theorem genCode_image :
    (∀ c : String, (∃ r : ℚ, toDouble r = r ∧ 0 ≤ r ∧ r < 1 ∧ genCode r = c) ↔
      ∃ n : Nat, 100000 ≤ n ∧ n ≤ 999999 ∧ c = toString n) ∧
    (∀ r : ℚ, toDouble r = r → 0 ≤ r → r < 1 →
      (genCode r).length = 6 ∧ (∀ ch ∈ (genCode r).data, ch.isDigit = true) ∧
        (genCode r).data.head? ≠ some '0') := by
  constructor
  · intro c
    constructor
    · rintro ⟨r, hd, h0, h1, rfl⟩
      obtain ⟨k, hlo, hhi, hk⟩ := genCode_eq_repr r hd h0 h1
      exact ⟨k, hlo, hhi, hk⟩
    · rintro ⟨n, hlo, hhi, rfl⟩
      exact genCode_of_draw n hlo hhi
  · intro r hd h0 h1
    obtain ⟨k, hlo, hhi, hk⟩ := genCode_eq_repr r hd h0 h1
    rw [hk, repr_six_digits k hlo hhi]
    refine ⟨rfl, ?_, ?_⟩
    · intro ch hch
      simp only [List.mem_cons, List.mem_singleton, List.not_mem_nil, or_false] at hch
      rcases hch with rfl | rfl | rfl | rfl | rfl | rfl <;>
        exact digitChar_isDigit _ (by omega)
    · simp only [List.head?_cons, ne_eq, Option.some.injEq]
      exact digitChar_ne_zero _ (by omega) (by omega)

/-! ## Issue of a code -/

theorem sendCode_present (s : Store) (now createdAt : Nat) (r : ℚ) (d : String)
    (hd : d ≠ "") :
    sendCode s now createdAt r (some d) =
      match findPatient s.patients d with
      | none => (.notFound, s)
      | some patient =>
        (.sent (now + 60000), { s with codes := s.codes ++
          [{ id := freshId (s.codes.map (·.id)), patient_id := patient.id,
             code := genCode r, created_at := createdAt, expires_at := now + 60000,
             is_used := false }] }) := by
  simp [sendCode, falsy, hd, defaultIsUsed]

/-- Claim C4.  Let the patient `p` of the non-empty document number `d` have an
unused code `old` with a non-empty value, and let send-code create a code for
the same patient that is newer than every unused code of the patient (its
`created_at` is greater).  Then send-code answers with the expiry, the new row
is the most recently created unused code of the patient, and whenever the value
of `old` differs from the generated code, a verification with the value of `old`
answers "Código incorrecto" at every time, leaves the store unchanged, and the
row `old` is still there and still unused. -/
theorem old_code_superseded (s : Store) (t createdAt : Nat) (r : ℚ) (d : String)
    (p : Patient) (old : VerificationCode) (hd : d ≠ "") (hc : old.code ≠ "")
    (hp : findPatient s.patients d = some p)
    (hold : old ∈ s.codes) (hpid : old.patient_id = p.id) (hun : old.is_used = false)
    (hnewer : ∀ x ∈ s.codes, x.patient_id = p.id → x.is_used = false →
      x.created_at < createdAt)
    (hne : old.code ≠ genCode r) :
    (sendCode s t createdAt r (some d)).1 = .sent (t + 60000) ∧
      (∃ row, (sendCode s t createdAt r (some d)).2.codes = s.codes ++ [row] ∧
        row.code = genCode r ∧
        latestUnusedCode (sendCode s t createdAt r (some d)).2.codes p.id = some row) ∧
      ∀ now, verifyCode (sendCode s t createdAt r (some d)).2 now (some d) (some old.code)
          = (.incorrectCode, (sendCode s t createdAt r (some d)).2) ∧
        ∃ x ∈ (verifyCode (sendCode s t createdAt r (some d)).2 now (some d)
          (some old.code)).2.codes, x = old ∧ x.patient_id = p.id ∧ x.is_used = false := by
  have hs := sendCode_present s t createdAt r d hd
  rw [hp] at hs
  simp only at hs
  rw [hs]
  have hl := latestUnusedCode_append_newer s.codes p.id
    { id := freshId (s.codes.map (·.id)), patient_id := p.id,
      code := genCode r, created_at := createdAt, expires_at := t + 60000,
      is_used := false } rfl rfl hnewer
  refine ⟨rfl, ⟨_, rfl, rfl, hl⟩, ?_⟩
  intro now
  have hv : ∀ s1 : Store, s1.patients = s.patients →
      ∀ row : VerificationCode, row.code = genCode r →
      latestUnusedCode s1.codes p.id = some row →
      verifyCode s1 now (some d) (some old.code) = (.incorrectCode, s1) := by
    intro s1 hpat row hrow hlat
    rw [verifyCode_present _ now d old.code hd hc, hpat]
    simp only [hp, hlat, hrow]
    rw [if_pos (fun h => hne h.symm)]
  have hv1 := hv { s with codes := s.codes ++
      [{ id := freshId (s.codes.map (·.id)), patient_id := p.id,
         code := genCode r, created_at := createdAt, expires_at := t + 60000,
         is_used := false }] } rfl _ rfl hl
  simp only [hv1]
  exact ⟨trivial, old, List.mem_append_left _ hold, rfl, hpid, hun⟩

/-- Sample for claim C4: after a third code is issued, the first code is a wrong code. -/
theorem old_code_superseded_witness :
    firstCode.code ≠ genCode 0 ∧
      verifyCode (sendCode twoCodes 1000 1001 0 (some "87654321")).2 2000
          (some "87654321") (some "111111")
        = (.incorrectCode, (sendCode twoCodes 1000 1001 0 (some "87654321")).2) :=
  ⟨by rw [genCode_zero]; decide,
   ((old_code_superseded twoCodes 1000 1001 0 "87654321" ana firstCode
    (by decide) (by decide) (by decide) (by decide) (by decide) (by decide) (by decide)
    (by rw [genCode_zero]; decide)).2.2 2000).1⟩

/-- Claim C6.  For a non-empty document number `d` and every reading `t` of
`Date.now()` in milliseconds: if a patient with document number `d` exists,
send-code answers `expires_at = t + 60000` and the store gains exactly one
verification-code row, which belongs to the patient found and has the same
`expires_at`; if no patient has document number `d`, send-code answers
"Paciente no encontrado" and the store is unchanged. -/
theorem sendCode_expiry (s : Store) (t createdAt : Nat) (r : ℚ) (d : String)
    (hd : d ≠ "") :
    ((∃ p ∈ s.patients, p.document_number = d) →
      ∃ p row, findPatient s.patients d = some p ∧ row.patient_id = p.id ∧
        row.expires_at = t + 60000 ∧
        sendCode s t createdAt r (some d)
          = (.sent (t + 60000), { s with codes := s.codes ++ [row] })) ∧
    ((∀ p ∈ s.patients, p.document_number ≠ d) →
      sendCode s t createdAt r (some d) = (.notFound, s)) := by
  have hs := sendCode_present s t createdAt r d hd
  constructor
  · rintro ⟨q, hq, hqd⟩
    cases hf : findPatient s.patients d with
    | none => exact absurd hqd ((findPatient_eq_none _ _).mp hf q hq)
    | some p =>
      rw [hf] at hs
      exact ⟨p, _, rfl, rfl, rfl, hs⟩
  · intro h
    rw [(findPatient_eq_none _ _).mpr h] at hs
    exact hs

/-- Sample for claim C6: a known and an unknown document number. -/
theorem sendCode_expiry_witness :
    (sendCode twoCodes 1000 1001 0 (some "87654321")).1 = .sent 61000 ∧
      sendCode twoCodes 1000 1001 0 (some "12345678") = (.notFound, twoCodes) :=
  ⟨by
    obtain ⟨p, row, -, -, -, h⟩ :=
      (sendCode_expiry twoCodes 1000 1001 0 "87654321" (by decide)).1 (by decide)
    rw [h],
   (sendCode_expiry twoCodes 1000 1001 0 "12345678" (by decide)).2 (by decide)⟩

/-! ## Case creation -/

theorem le_foldr_max (ids : List Nat) (x : Nat) (h : x ∈ ids) : x ≤ ids.foldr max 0 := by
  induction ids with
  | nil => cases h
  | cons a t ih =>
    simp only [List.foldr_cons]
    rcases List.mem_cons.mp h with rfl | h
    · exact le_max_left _ _
    · exact le_trans (ih h) (le_max_right _ _)

/-- The key given to an inserted row is carried by no row of the table. -/
theorem freshId_not_mem (ids : List Nat) : freshId ids ∉ ids := by
  intro h
  have := le_foldr_max ids _ h
  unfold freshId at this
  omega

theorem findDoctor_some (lower : String → String) (us : List User) (sp : String)
    (u : User) (h : findDoctor lower us sp = some u) :
    u ∈ us ∧ lower u.specialty = lower sp := by
  unfold findDoctor at h
  exact ⟨List.mem_of_find?_eq_some h, by simpa using List.find?_some h⟩

theorem findDoctor_eq_none (lower : String → String) (us : List User) (sp : String) :
    findDoctor lower us sp = none ↔ ∀ u ∈ us, lower u.specialty ≠ lower sp := by
  unfold findDoctor
  simp [List.find?_eq_none]

theorem findOrCreatePatient_known (s : Store) (info : PatientInfo) (p : Patient)
    (h : findPatient s.patients info.dni = some p) :
    findOrCreatePatient s info = (p, s) := by
  simp [findOrCreatePatient, h]

theorem findOrCreatePatient_unknown (s : Store) (info : PatientInfo)
    (h : findPatient s.patients info.dni = none) :
    findOrCreatePatient s info =
      ({ id := freshId (s.patients.map (·.id)),
         full_name := info.nombres ++ " " ++ info.apellidos,
         document_number := info.dni,
         whatsapp_number := info.whatsapp,
         email := info.email },
       { s with patients := s.patients ++
          [{ id := freshId (s.patients.map (·.id)),
             full_name := info.nombres ++ " " ++ info.apellidos,
             document_number := info.dni,
             whatsapp_number := info.whatsapp,
             email := info.email }] }) := by
  simp [findOrCreatePatient, h]

/-- Step 1 of case creation touches the patients table only, and the patient it
resolves is a row of the resulting table with the requested document number. -/
theorem findOrCreatePatient_spec (s : Store) (info : PatientInfo) :
    (findOrCreatePatient s info).2.codes = s.codes ∧
    (findOrCreatePatient s info).2.users = s.users ∧
    (findOrCreatePatient s info).2.cases = s.cases ∧
    (findOrCreatePatient s info).2.appointments = s.appointments ∧
    (findOrCreatePatient s info).1 ∈ (findOrCreatePatient s info).2.patients ∧
    (findOrCreatePatient s info).1.document_number = info.dni := by
  cases h : findPatient s.patients info.dni with
  | none =>
    rw [findOrCreatePatient_unknown s info h]
    simp
  | some p =>
    rw [findOrCreatePatient_known s info p h]
    have := findPatient_some _ _ _ h
    exact ⟨rfl, rfl, rfl, rfl, this.1, this.2⟩

/-- Claim C7.  For every store, every function `LOWER`, and every request whose
`appointment_time` is missing or null (`none`) or the empty string, whatever the
other fields are, case creation answers with status 400 and the message asking
for a date, and the store is unchanged: no patient, case or appointment row is
created. -/
theorem missing_appointment_rejected (lower : String → String) (s : Store)
    (createdAt : Nat) (req : CaseRequest)
    (h : req.appointment_time = none ∨ req.appointment_time = some "") :
    createCaseFromIa lower s createdAt req = (.missingAppointment, s) ∧
      (createCaseFromIa lower s createdAt req).1.status = 400 := by
  have hf : falsy req.appointment_time = true := by
    rcases h with h | h <;> simp [h, falsy]
  simp [createCaseFromIa, hf, CaseOutcome.status]

/-- Sample for claim C7: an empty appointment time. -/
theorem missing_appointment_rejected_witness :
    createCaseFromIa lowerAscii twoCodes 5 { triage with appointment_time := some "" }
      = (.missingAppointment, twoCodes) :=
  (missing_appointment_rejected lowerAscii twoCodes 5
    { triage with appointment_time := some "" } (Or.inr rfl)).1

theorem createCaseFromIa_present (lower : String → String) (s : Store) (createdAt : Nat)
    (req : CaseRequest) (t : String) (ht : req.appointment_time = some t) (hne : t ≠ "") :
    createCaseFromIa lower s createdAt req =
      match findDoctor lower (findOrCreatePatient s req.patient).2.users
          (normalizedSpecialty req.specialty) with
      | none => (.noDoctor, (findOrCreatePatient s req.patient).2)
      | some doctor =>
        (.created
          { id := freshId ((findOrCreatePatient s req.patient).2.cases.map (·.id)),
            patient_id := (findOrCreatePatient s req.patient).1.id,
            assigned_doctor_id := doctor.id,
            specialty := normalizedSpecialty req.specialty,
            risk_level := req.risk_level,
            status := "REGISTRADO",
            ai_summary := req.conversation_summary,
            ai_symptoms := jsonStringify (symptomsArray req.symptoms),
            possible_diagnosis := req.possible_diagnosis,
            recommended_treatment := req.recommended_treatment,
            diagnosis_justification := req.diagnosis_justification,
            estimated_price := 8.00,
            created_at := createdAt }
          { id := freshId ((findOrCreatePatient s req.patient).2.appointments.map (·.id)),
            case_id := freshId ((findOrCreatePatient s req.patient).2.cases.map (·.id)),
            patient_id := (findOrCreatePatient s req.patient).1.id,
            doctor_id := doctor.id,
            specialty := normalizedSpecialty req.specialty,
            scheduled_date := t,
            status := "CONFIRMADA",
            price := 8.00 },
         { (findOrCreatePatient s req.patient).2 with
            cases := (findOrCreatePatient s req.patient).2.cases ++
              [{ id := freshId ((findOrCreatePatient s req.patient).2.cases.map (·.id)),
                 patient_id := (findOrCreatePatient s req.patient).1.id,
                 assigned_doctor_id := doctor.id,
                 specialty := normalizedSpecialty req.specialty,
                 risk_level := req.risk_level,
                 status := "REGISTRADO",
                 ai_summary := req.conversation_summary,
                 ai_symptoms := jsonStringify (symptomsArray req.symptoms),
                 possible_diagnosis := req.possible_diagnosis,
                 recommended_treatment := req.recommended_treatment,
                 diagnosis_justification := req.diagnosis_justification,
                 estimated_price := 8.00,
                 created_at := createdAt }],
            appointments := (findOrCreatePatient s req.patient).2.appointments ++
              [{ id := freshId ((findOrCreatePatient s req.patient).2.appointments.map (·.id)),
                 case_id := freshId ((findOrCreatePatient s req.patient).2.cases.map (·.id)),
                 patient_id := (findOrCreatePatient s req.patient).1.id,
                 doctor_id := doctor.id,
                 specialty := normalizedSpecialty req.specialty,
                 scheduled_date := t,
                 status := "CONFIRMADA",
                 price := 8.00 }] }) := by
  unfold createCaseFromIa
  rw [ht, if_neg (by simp [falsy, hne])]
  rfl

/-- The resolved specialty is the default label when the field is missing,
null or empty, and the given label otherwise, trimmed in both cases. -/
theorem normalizedSpecialty_cases :
    normalizedSpecialty none = "Medicina General" ∧
      normalizedSpecialty (some "") = "Medicina General" ∧
      ∀ label : String, label ≠ "" → normalizedSpecialty (some label) = jsTrim label := by
  refine ⟨by decide, by decide, ?_⟩
  intro label h
  simp [normalizedSpecialty, falsy, h]

/-- Claim C8.  For every request with a non-empty `appointment_time` whose
resolved specialty (`normalizedSpecialty`: the given label, or "Medicina
General" when the field is missing, null or empty, trimmed) has the same `LOWER`
as the specialty of no row of `users`, case creation answers "No existe médico
para esa especialidad", the tables of cases and of appointments are unchanged,
and the table of patients gains exactly one row, with the requested document
number, when no patient had it, and is unchanged when a patient had it. -/
theorem no_doctor_rejected (lower : String → String) (s : Store) (createdAt : Nat)
    (req : CaseRequest) (t : String) (ht : req.appointment_time = some t) (hne : t ≠ "")
    (hnone : ∀ u ∈ s.users, lower u.specialty ≠ lower (normalizedSpecialty req.specialty)) :
    (createCaseFromIa lower s createdAt req).1 = .noDoctor ∧
    (createCaseFromIa lower s createdAt req).2.cases = s.cases ∧
    (createCaseFromIa lower s createdAt req).2.appointments = s.appointments ∧
    ((∀ p ∈ s.patients, p.document_number ≠ req.patient.dni) →
      ∃ row, row.document_number = req.patient.dni ∧
        (createCaseFromIa lower s createdAt req).2.patients = s.patients ++ [row]) ∧
    ((∃ p ∈ s.patients, p.document_number = req.patient.dni) →
      (createCaseFromIa lower s createdAt req).2.patients = s.patients) := by
  have hspec := findOrCreatePatient_spec s req.patient
  have hdoc : findDoctor lower (findOrCreatePatient s req.patient).2.users
      (normalizedSpecialty req.specialty) = none := by
    rw [findDoctor_eq_none, hspec.2.1]; exact hnone
  rw [createCaseFromIa_present lower s createdAt req t ht hne, hdoc]
  refine ⟨rfl, hspec.2.2.1, hspec.2.2.2.1, ?_, ?_⟩
  · intro h
    rw [findOrCreatePatient_unknown s req.patient ((findPatient_eq_none _ _).mpr h)]
    exact ⟨_, rfl, rfl⟩
  · rintro ⟨q, hq, hqd⟩
    cases hf : findPatient s.patients req.patient.dni with
    | none => exact absurd hqd ((findPatient_eq_none _ _).mp hf q hq)
    | some p => rw [findOrCreatePatient_known s req.patient p hf]

/-- Sample for claim C8: no doctor has the specialty asked for. -/
theorem no_doctor_rejected_witness :
    (createCaseFromIa lowerAscii twoCodes 5 { triage with specialty := some "Pediatría" }).1
        = .noDoctor ∧
      (createCaseFromIa lowerAscii twoCodes 5
        { triage with specialty := some "Pediatría" }).2.cases = [] :=
  ⟨(no_doctor_rejected lowerAscii twoCodes 5 { triage with specialty := some "Pediatría" }
      "2025-01-01T10:00:00Z" rfl (by decide) (by decide)).1,
   (no_doctor_rejected lowerAscii twoCodes 5 { triage with specialty := some "Pediatría" }
      "2025-01-01T10:00:00Z" rfl (by decide) (by decide)).2.1⟩

/-- Claim C9.  For every request with a non-empty `appointment_time` whose
resolved specialty has the same `LOWER` as the specialty of some row of `users`,
case creation answers with a case `c` and an appointment `a` such that: the
table of cases gains exactly `c` and the table of appointments exactly `a`; `c`
has status REGISTRADO and price 8.00; `a` has status CONFIRMADA, price 8.00 and
the given time; both carry the id of one `doctor`, a row of `users` whose
specialty matches the resolved one under `LOWER`; both carry the id of one
`patient` with the requested document number, which is the patient found when
one existed and the row appended to the table of patients otherwise; and the
case reference of `a` is the id of `c`, an id no earlier case carries. -/
theorem case_and_appointment_created (lower : String → String) (s : Store)
    (createdAt : Nat) (req : CaseRequest) (t : String)
    (ht : req.appointment_time = some t) (hne : t ≠ "")
    (hsome : ∃ u ∈ s.users, lower u.specialty = lower (normalizedSpecialty req.specialty)) :
    ∃ (doctor : User) (patient : Patient) (c : Case) (a : Appointment),
      (createCaseFromIa lower s createdAt req).1 = .created c a ∧
      (createCaseFromIa lower s createdAt req).2.cases = s.cases ++ [c] ∧
      (createCaseFromIa lower s createdAt req).2.appointments = s.appointments ++ [a] ∧
      c.status = "REGISTRADO" ∧ c.estimated_price = 8.00 ∧
      a.status = "CONFIRMADA" ∧ a.price = 8.00 ∧ a.scheduled_date = t ∧
      doctor ∈ s.users ∧
      lower doctor.specialty = lower (normalizedSpecialty req.specialty) ∧
      c.assigned_doctor_id = doctor.id ∧ a.doctor_id = doctor.id ∧
      patient ∈ (createCaseFromIa lower s createdAt req).2.patients ∧
      patient.document_number = req.patient.dni ∧
      c.patient_id = patient.id ∧ a.patient_id = patient.id ∧
      (∀ p0, findPatient s.patients req.patient.dni = some p0 →
        patient = p0 ∧ (createCaseFromIa lower s createdAt req).2.patients = s.patients) ∧
      ((∀ p ∈ s.patients, p.document_number ≠ req.patient.dni) →
        (createCaseFromIa lower s createdAt req).2.patients = s.patients ++ [patient]) ∧
      a.case_id = c.id ∧ (∀ x ∈ s.cases, x.id ≠ c.id) := by
  have hspec := findOrCreatePatient_spec s req.patient
  obtain ⟨hcodes, husers, hcases, happ, hmem, hdni⟩ := hspec
  cases hdoc : findDoctor lower (findOrCreatePatient s req.patient).2.users
      (normalizedSpecialty req.specialty) with
  | none =>
    rw [findDoctor_eq_none, husers] at hdoc
    obtain ⟨u, hu, hus⟩ := hsome
    exact absurd hus (hdoc u hu)
  | some doctor =>
    have hd := findDoctor_some _ _ _ _ hdoc
    rw [husers] at hd
    rw [createCaseFromIa_present lower s createdAt req t ht hne, hdoc]
    refine ⟨doctor, (findOrCreatePatient s req.patient).1, _, _, rfl, ?_, ?_, rfl, rfl, rfl,
      rfl, rfl, hd.1, hd.2, rfl, rfl, hmem, hdni, rfl, rfl, ?_, ?_, rfl, ?_⟩
    · simp only [hcases]
    · simp only [happ]
    · intro p0 hp0
      rw [findOrCreatePatient_known s req.patient p0 hp0]
      exact ⟨rfl, rfl⟩
    · intro h
      rw [findOrCreatePatient_unknown s req.patient ((findPatient_eq_none _ _).mpr h)]
    · intro x hx heq
      simp only [hcases] at heq
      exact freshId_not_mem (s.cases.map (·.id)) (heq ▸ List.mem_map_of_mem _ hx)

/-- Sample for claim C9: the scenario of an unknown patient and one cardiologist. -/
theorem case_and_appointment_created_witness :
    ∃ c a, (createCaseFromIa lowerAscii twoCodes 5 triage).1 = .created c a ∧
      c.status = "REGISTRADO" ∧ a.status = "CONFIRMADA" ∧ a.case_id = c.id := by
  obtain ⟨_, _, c, a, h1, _, _, h4, _, h6, _, _, _, _, _, _, _, _, _, _, _, _, h23, _⟩ :=
    case_and_appointment_created lowerAscii twoCodes 5 triage "2025-01-01T10:00:00Z" rfl
      (by decide) (by decide)
  exact ⟨c, a, h1, h4, h6, h23⟩

/-! ## The symptoms written and read back -/

theorem readFrom_append (st : ReadState) (out : List String) (a b : List Char) :
    readFrom st out (a ++ b) =
      (readFrom st out a).bind (fun next => readFrom next.1 next.2 b) := by
  induction a generalizing st out with
  | nil => rfl
  | cons c cs ih =>
    simp only [List.cons_append, readFrom]
    cases readChar st out c with
    | none => rfl
    | some next => exact ih next.1 next.2

theorem hexVal_hexDigit (d : Nat) (h : d < 16) : hexVal (hexDigit d) = some d := by
  interval_cases d <;> rfl

theorem readFrom_escapeChar (c : Char) (cur : List Char) (out : List String) :
    readFrom (.str cur) out (escapeChar c) = some (.str (c :: cur), out) := by
  unfold escapeChar
  split
  · next h => subst h; rfl
  · split
    · next h => subst h; rfl
    · next hq hb =>
      have hco : Char.ofNat c.toNat = c := Char.ofNat_toNat c
      split
      · next h => rw [h] at hco; rw [← hco]; rfl
      · split
        · next h => rw [h] at hco; rw [← hco]; rfl
        · split
          · next h => rw [h] at hco; rw [← hco]; rfl
          · split
            · next h => rw [h] at hco; rw [← hco]; rfl
            · split
              · next h => rw [h] at hco; rw [← hco]; rfl
              · split
                · next hlt =>
                  have h1 : hexVal (hexDigit (c.toNat / 16)) = some (c.toNat / 16) :=
                    hexVal_hexDigit _ (by omega)
                  have h2 : hexVal (hexDigit (c.toNat % 16)) = some (c.toNat % 16) :=
                    hexVal_hexDigit _ (by omega)
                  have h0 : hexVal '0' = some 0 := rfl
                  have hw : 16 * (c.toNat / 16) + c.toNat % 16 = c.toNat := by omega
                  have hs : ¬ (0xD800 ≤ c.toNat ∧ c.toNat ≤ 0xDFFF) := by omega
                  simp [readFrom, readChar, h0, h1, h2, hs, hw, hco]
                · next hge =>
                  simp [readFrom, readChar, hq, hb, hge]

theorem readFrom_escaped (cs cur : List Char) (out : List String) :
    readFrom (.str cur) out (cs.flatMap escapeChar) = some (.str (cs.reverse ++ cur), out) := by
  induction cs generalizing cur with
  | nil => rfl
  | cons c t ih =>
    rw [List.flatMap_cons, readFrom_append, readFrom_escapeChar]
    show readFrom (.str (c :: cur)) out (t.flatMap escapeChar) = _
    rw [ih, List.reverse_cons, List.append_assoc, List.singleton_append]

theorem readFrom_quote (st : ReadState) (hst : st = .first ∨ st = .item) (cs : List Char)
    (out : List String) :
    readFrom st out (quoteChars cs) = some (.after, String.mk cs :: out) := by
  have hopen : readChar st out '"' = some (.str [], out) := by
    rcases hst with h | h <;> subst h <;> rfl
  unfold quoteChars
  rw [readFrom, hopen]
  simp only
  rw [readFrom_append, readFrom_escaped]
  simp [readFrom, readChar]

theorem readFrom_joinItems (st : ReadState) (hst : st = .first ∨ st = .item)
    (x : String) (xs : List String) (out : List String) :
    readFrom st out (joinItems (x :: xs)) = some (.after, (x :: xs).reverse ++ out) := by
  induction xs generalizing st x out with
  | nil =>
    simp only [joinItems]
    rw [readFrom_quote st hst]
    simp
  | cons y rest ih =>
    simp only [joinItems]
    rw [readFrom_append, readFrom_quote st hst]
    show readFrom .item (String.mk x.data :: out) (joinItems (y :: rest)) = _
    rw [ih .item (Or.inr rfl)]
    simp

/-- Reading back what `JSON.stringify` wrote for an array of strings gives the
array. -/
theorem parse_stringify (xs : List String) : parseStringArray (jsonStringify xs) = some xs := by
  unfold parseStringArray jsonStringify
  simp only
  have hopen : readChar .start [] '[' = some (.first, []) := rfl
  rw [readFrom, hopen]
  simp only
  cases xs with
  | nil => rfl
  | cons x rest =>
    rw [readFrom_append, readFrom_joinItems .first (Or.inl rfl)]
    simp [readFrom, readChar, isJsonSpace]

theorem readSymptoms_stringify (xs : List String) : readSymptoms (jsonStringify xs) = xs := by
  simp [readSymptoms, parse_stringify]

theorem mem_listCases (s : Store) (userId : Nat) (v : CaseView) :
    v ∈ listCases s userId ↔
      ∃ c ∈ s.cases, ∃ p ∈ s.patients, p.id = c.patient_id ∧ c.assigned_doctor_id = userId ∧
        v = { row := c, ai_symptoms := readSymptoms c.ai_symptoms,
              patient_name := p.full_name, dni := p.document_number } := by
  unfold listCases
  simp only [List.mem_map]
  constructor
  · rintro ⟨cp, hcp, rfl⟩
    rw [(List.perm_insertionSort _ _).mem_iff, List.mem_filter, List.mem_flatMap] at hcp
    obtain ⟨⟨c, hc, hin⟩, hdoc⟩ := hcp
    rw [List.mem_map] at hin
    obtain ⟨p, hp, rfl⟩ := hin
    rw [List.mem_filter] at hp
    exact ⟨c, hc, p, hp.1, by simpa using hp.2, by simpa using hdoc, rfl⟩
  · rintro ⟨c, hc, p, hp, hid, hdoc, rfl⟩
    refine ⟨(c, p), ?_, rfl⟩
    rw [(List.perm_insertionSort _ _).mem_iff, List.mem_filter, List.mem_flatMap]
    refine ⟨⟨c, hc, ?_⟩, by simpa using hdoc⟩
    rw [List.mem_map]
    exact ⟨p, by rw [List.mem_filter]; exact ⟨hp, by simpa using hid⟩, rfl⟩

/-- Claim C10 fails as stated.  The triage request of the samples with the
symptoms sent as the array `[" fever", "cough "]` creates a case whose listing
row carries `[" fever", "cough "]`, the items as sent, while the items trimmed
are `["fever", "cough"]`. -/
theorem untrimmed_list_counterexample :
    (listCases (createCaseFromIa lowerAscii twoCodes 5 triageList).2 7).map (·.ai_symptoms)
        = [[" fever", "cough "]] ∧
      (listCases (createCaseFromIa lowerAscii twoCodes 5 triageList).2 7).map (·.ai_symptoms)
        ≠ [[" fever", "cough "].map jsTrim] ∧
      [" fever", "cough "].map jsTrim = ["fever", "cough"] := by
  decide

/-- Claim C10, amended.  When case creation answers with a case `c`, the case
listing of the doctor of `c` shows `c`, and every listing row of `c` carries as
symptoms: for a comma-separated string, the pieces between the commas, in
order, each trimmed; for an array of strings, the items of the array in order
and unchanged (they are not trimmed); for any other value, the empty list. -/
theorem symptoms_read_back (lower : String → String) (s : Store) (createdAt : Nat)
    (req : CaseRequest) (c : Case) (a : Appointment) (s1 : Store)
    (h : createCaseFromIa lower s createdAt req = (.created c a, s1)) :
    (∃ v ∈ listCases s1 c.assigned_doctor_id, v.row = c) ∧
      ∀ userId, ∀ v ∈ listCases s1 userId, v.row = c →
        v.ai_symptoms =
          match req.symptoms with
          | .list items => items
          | .text txt => (jsSplitComma txt).map jsTrim
          | .other => [] := by
  have hsym : c.ai_symptoms = jsonStringify (symptomsArray req.symptoms) ∧
      c ∈ s1.cases ∧ ∃ p ∈ s1.patients, p.id = c.patient_id := by
    cases ht : req.appointment_time with
    | none => simp [createCaseFromIa, ht, falsy] at h
    | some t =>
      by_cases hne : t = ""
      · simp [createCaseFromIa, ht, falsy, hne] at h
      · rw [createCaseFromIa_present lower s createdAt req t ht hne] at h
        cases hdoc : findDoctor lower (findOrCreatePatient s req.patient).2.users
            (normalizedSpecialty req.specialty) with
        | none => rw [hdoc] at h; simp at h
        | some doctor =>
          rw [hdoc] at h
          simp only [Prod.mk.injEq, CaseOutcome.created.injEq] at h
          obtain ⟨⟨hc, -⟩, hs1⟩ := h
          subst hc hs1
          exact ⟨rfl, by simp, _, (findOrCreatePatient_spec s req.patient).2.2.2.2.1, rfl⟩
  obtain ⟨hsy, hmem, p, hp, hpid⟩ := hsym
  constructor
  · exact ⟨_, (mem_listCases s1 _ _).mpr ⟨c, hmem, p, hp, hpid, rfl, rfl⟩, rfl⟩
  · intro userId v hv hrow
    obtain ⟨c2, -, p2, -, -, -, rfl⟩ := (mem_listCases s1 userId v).mp hv
    simp only at hrow
    subst hrow
    simp only [hsy, readSymptoms_stringify]
    cases req.symptoms <;> rfl

/-- Sample for claim C10: the text "fever, cough" is listed as two trimmed items. -/
theorem symptoms_read_back_witness :
    ∃ v ∈ listCases (createCaseFromIa lowerAscii twoCodes 5 triage).2 7,
      v.row = triageCase ∧ v.ai_symptoms = ["fever", "cough"] := by
  have h := symptoms_read_back lowerAscii twoCodes 5 triage triageCase triageAppointment
    (createCaseFromIa lowerAscii twoCodes 5 triage).2 rfl
  obtain ⟨v, hv, hrow⟩ := h.1
  exact ⟨v, hv, hrow, (h.2 7 v hv hrow).trans (by decide)⟩

end Medisense
